import Mathlib

/-!
# Verification of the zen-create Player core

A shallow embedding of the media-player core of the repository
(`src/components/Player.tsx`): the subtitle chunker, the scene-advance
sequencer, the recording buffer, and the frame renderer, with theorems
settling the specification's claims about them.

Modelling conventions:
* JavaScript strings are `List Char`; `String.prototype.trim` and the
  punctuation-splitting regex are translated character by character.
* JavaScript numbers are exact rationals (`ℚ`); spec statements qualified
  "within floating rounding" hold exactly in this model.
* `undefined`-able fields are `Option`; the idiom `x || 5` maps `none` and
  `some 0` to `5` (both are falsy in JavaScript).
* Event-driven control flow (timers, media events) is modelled by total
  functions describing which handlers the code arms and what each does.
-/

namespace ZenCreate

/-! ## Subtitle chunker (Player.tsx, `currentSubtitles`, lines 47-78) -/

/-- The punctuation class of the splitting regex `/([，。！？；：,.!?]+)/`. -/
def isPunct (c : Char) : Bool :=
  c = '，' || c = '。' || c = '！' || c = '？' || c = '；' || c = '：' ||
  c = ',' || c = '.' || c = '!' || c = '?'

/-- Whitespace removed by `String.prototype.trim` (the JavaScript `\s` class,
restricted to the characters that can occur here). -/
def isJsSpace (c : Char) : Bool :=
  c = ' ' || c = '\t' || c = '\n' || c = '\r' || c = '\x0b' || c = '\x0c' ||
  c = ' ' || c = '　'

/-- `String.prototype.trim`: drop leading and trailing whitespace. -/
def jsTrim (l : List Char) : List Char :=
  ((l.dropWhile isJsSpace).reverse.dropWhile isJsSpace).reverse

/-- Worker for the splitting regex: scan the text, grouping it into maximal
runs of same-class characters (`inPunct` says which class the run being
accumulated in `acc`, reversed, belongs to); a punctuation run closes the
preceding non-punctuation stretch and vice versa.  A trailing punctuation run
is followed by the empty stretch, as JavaScript `split` produces. -/
def splitRunsAux : Bool → List Char → List Char → List (List Char)
  | inPunct, [], acc => if inPunct then [acc.reverse, []] else [acc.reverse]
  | inPunct, c :: tl, acc =>
    if isPunct c = inPunct then splitRunsAux inPunct tl (c :: acc)
    else acc.reverse :: splitRunsAux (!inPunct) tl [c]

/-- `text.split(/([，。！？；：,.!?]+)/)`: JavaScript `split` with a capture
group returns the non-punctuation stretches with each separator (a maximal
punctuation run) spliced in between, so the result alternates
non-punctuation, punctuation, non-punctuation, ... (outer entries possibly
empty). -/
def splitCaptures (l : List Char) : List (List Char) :=
  splitRunsAux false l []

/-- The `reduce` of lines 53-59: walk the alternating list pairwise; for each
non-punctuation stretch whose trim is non-empty, emit the trimmed stretch with
the following punctuation run (`''` when absent) appended. -/
def collectParts : List (List Char) → List (List Char)
  | [] => []
  | [s] => if jsTrim s = [] then [] else [jsTrim s]
  | s :: p :: rest =>
    (if jsTrim s = [] then [] else [jsTrim s ++ p]) ++ collectParts rest

/-- Line 61: `parts.length > 0 ? parts : [text]`. -/
def finalParts (text : List Char) : List (List Char) :=
  let parts := collectParts (splitCaptures text)
  if parts.isEmpty then [text] else parts

/-- Line 50: `currentScene.audioDuration || 5` — `undefined` and `0` are both
falsy, so both default to 5 seconds. -/
def defaultDuration (d : Option ℚ) : ℚ :=
  match d with
  | none => 5
  | some x => if x = 0 then 5 else x

/-- A timed subtitle span (interface `SubtitleChunk`; the `end` field is
renamed `stop` because `end` is a Lean keyword). -/
structure SubtitleChunk where
  text : List Char
  start : ℚ
  stop : ℚ
deriving DecidableEq, Repr

/-- Line 68: a segment's share of the duration, `part.length / totalChars *
duration` when `totalChars > 0`, else the whole `duration`. -/
def partDur (totalChars : ℕ) (duration : ℚ) (part : List Char) : ℚ :=
  if totalChars > 0 then ((part.length : ℚ) / (totalChars : ℚ)) * duration
  else duration

/-- The `forEach` of lines 67-75: emit one chunk per segment, accumulating a
running start offset. -/
def mkChunks (totalChars : ℕ) (duration : ℚ) :
    List (List Char) → ℚ → List SubtitleChunk
  | [], _ => []
  | part :: rest, currentTime =>
    ⟨part, currentTime, currentTime + partDur totalChars duration part⟩ ::
      mkChunks totalChars duration rest
        (currentTime + partDur totalChars duration part)

/-- `currentSubtitles` (lines 47-78) for one scene: split the narration,
then allot each segment a character-proportional share of the duration.
`totalChars` is `finalParts.join('').length`. -/
def currentSubtitles (narration : List Char) (audioDuration : Option ℚ) :
    List SubtitleChunk :=
  mkChunks (finalParts narration).flatten.length
    (defaultDuration audioDuration) (finalParts narration) 0

/-! ### Structural facts about the chunker -/

/-- Every segment the `reduce` emits is non-empty: it is a non-empty trimmed
stretch with a (possibly empty) punctuation run appended. -/
theorem collectParts_mem_ne_nil :
    ∀ (arr : List (List Char)) (q : List Char), q ∈ collectParts arr → q ≠ []
  | [], q, hq => by simp [collectParts] at hq
  | [s], q, hq => by
    simp only [collectParts] at hq
    split at hq
    · simp at hq
    · next hs =>
      rw [List.mem_singleton] at hq
      exact hq ▸ hs
  | s :: p :: rest, q, hq => by
    simp only [collectParts, List.mem_append] at hq
    rcases hq with hq | hq
    · split at hq
      · simp at hq
      · next hs =>
        rw [List.mem_singleton] at hq
        subst hq
        simp [hs]
    · exact collectParts_mem_ne_nil rest q hq

/-- The segment list fed to the chunk loop is never empty (line 61 replaces
an empty split by the whole text). -/
theorem finalParts_ne_nil (text : List Char) : finalParts text ≠ [] := by
  rw [finalParts]
  split
  · simp
  · next h => simpa [List.isEmpty_iff] using h

/-- When the total character count is zero, the degenerate branch of line 61
was taken: the segment list is just the whole (empty) text. -/
theorem finalParts_of_flatten_nil (text : List Char)
    (h : (finalParts text).flatten.length = 0) : finalParts text = [text] := by
  by_cases he : (collectParts (splitCaptures text)).isEmpty
  · rw [finalParts, if_pos he]
  · exfalso
    have hfp : finalParts text = collectParts (splitCaptures text) := by
      rw [finalParts, if_neg he]
    rw [hfp] at h
    have hne : collectParts (splitCaptures text) ≠ [] := by
      intro hnil
      rw [hnil] at he
      simp at he
    obtain ⟨q, hq⟩ := List.exists_mem_of_ne_nil _ hne
    have hq0 : q.length = 0 := by
      have hsub : q.length ≤ (collectParts (splitCaptures text)).flatten.length := by
        rw [List.length_flatten]
        exact List.single_le_sum (fun _ _ => Nat.zero_le _) _
          (List.mem_map_of_mem List.length hq)
      omega
    exact collectParts_mem_ne_nil _ q hq (List.length_eq_zero.mp hq0)

/-- A segment's allotted span is non-negative when the duration is. -/
theorem partDur_nonneg (tc : ℕ) (d : ℚ) (p : List Char) (hd : 0 ≤ d) :
    0 ≤ partDur tc d p := by
  rw [partDur]
  split
  · exact mul_nonneg (div_nonneg (Nat.cast_nonneg _) (Nat.cast_nonneg _)) hd
  · exact hd

/-- The proportional spans of all segments sum to the whole duration when the
total character count is positive. -/
theorem sum_partDur_eq (d : ℚ) (parts : List (List Char))
    (h : 0 < (parts.map List.length).sum) :
    (parts.map (partDur (parts.map List.length).sum d)).sum = d := by
  have htc : ((parts.map List.length).sum : ℚ) ≠ 0 := by
    exact_mod_cast h.ne'
  have hfun : ∀ p ∈ parts, partDur (parts.map List.length).sum d p =
      (p.length : ℚ) * (d / ((parts.map List.length).sum : ℚ)) := by
    intro p _
    rw [partDur, if_pos h]
    ring
  have hcast : (List.map (fun a : List Char => (a.length : ℚ)) parts).sum =
      (((parts.map List.length).sum : ℕ) : ℚ) := by
    rw [Nat.cast_list_sum (parts.map List.length), List.map_map]
    rfl
  rw [List.map_congr_left hfun, List.sum_map_mul_right, hcast]
  rw [mul_comm, div_mul_cancel₀ d htc]

/-- One chunk per segment. -/
theorem mkChunks_map_text (tc : ℕ) (d : ℚ) :
    ∀ (parts : List (List Char)) (t : ℚ),
      (mkChunks tc d parts t).map SubtitleChunk.text = parts
  | [], _ => rfl
  | p :: rest, t => by
    simp only [mkChunks, List.map_cons]
    rw [mkChunks_map_text tc d rest]

/-- The chunk loop emits a chunk exactly when there is a segment, and the
first chunk starts at the running offset. -/
theorem mkChunks_head? (tc : ℕ) (d : ℚ) (parts : List (List Char)) (t : ℚ) :
    (mkChunks tc d parts t).head? =
      parts.head?.map (fun p => ⟨p, t, t + partDur tc d p⟩) := by
  cases parts <;> simp [mkChunks]

/-- Each chunk's span is the allotted share for its own text (line 72:
`end = start + partDuration`). -/
theorem mkChunks_stop_eq (tc : ℕ) (d : ℚ) :
    ∀ (parts : List (List Char)) (t : ℚ),
      ∀ c ∈ mkChunks tc d parts t, c.stop = c.start + partDur tc d c.text
  | [], _ => by simp [mkChunks]
  | p :: rest, t => by
    intro c hc
    simp only [mkChunks, List.mem_cons] at hc
    rcases hc with rfl | hc
    · rfl
    · exact mkChunks_stop_eq tc d rest _ c hc

/-- Contiguity: each chunk begins where the previous one ends (line 74:
`currentTime += partDuration`). -/
theorem mkChunks_chain (tc : ℕ) (d : ℚ) :
    ∀ (parts : List (List Char)) (t : ℚ),
      List.Chain' (fun a b => b.start = a.stop) (mkChunks tc d parts t)
  | [], _ => List.chain'_nil
  | p :: rest, t => by
    rw [mkChunks, List.chain'_cons']
    refine ⟨fun b hb => ?_, mkChunks_chain tc d rest _⟩
    rw [mkChunks_head?] at hb
    cases rest with
    | nil => simp at hb
    | cons q rest2 =>
      simp only [List.head?_cons, Option.map_some', Option.mem_def,
        Option.some.injEq] at hb
      rw [← hb]

/-- Chunk `end` values never decrease along the list when the duration is
non-negative. -/
theorem mkChunks_stop_chain (tc : ℕ) (d : ℚ) (hd : 0 ≤ d) :
    ∀ (parts : List (List Char)) (t : ℚ),
      List.Chain' (fun a b => a.stop ≤ b.stop) (mkChunks tc d parts t)
  | [], _ => List.chain'_nil
  | p :: rest, t => by
    rw [mkChunks, List.chain'_cons']
    refine ⟨fun b hb => ?_, mkChunks_stop_chain tc d hd rest _⟩
    rw [mkChunks_head?] at hb
    cases rest with
    | nil => simp at hb
    | cons q rest2 =>
      simp only [List.head?_cons, Option.map_some', Option.mem_def,
        Option.some.injEq] at hb
      rw [← hb]
      simp only
      have := partDur_nonneg tc d q hd
      linarith

/-- The last chunk ends at the running offset plus the sum of all allotted
spans. -/
theorem mkChunks_getLast?_stop (tc : ℕ) (d : ℚ) :
    ∀ (parts : List (List Char)) (t : ℚ),
      (mkChunks tc d parts t).getLast?.map SubtitleChunk.stop =
        parts.head?.map (fun _ => t + (parts.map (partDur tc d)).sum)
  | [], _ => rfl
  | p :: rest, t => by
    cases rest with
    | nil => simp [mkChunks]
    | cons q rest2 =>
      rw [mkChunks, mkChunks]
      rw [List.getLast?_cons_cons]
      have ih := mkChunks_getLast?_stop tc d (q :: rest2) (t + partDur tc d p)
      rw [mkChunks] at ih
      rw [ih]
      simp only [List.head?_cons, Option.map_some', Option.some.injEq,
        List.map_cons, List.sum_cons]
      ring

/-! ### Claim theorems for the chunker -/

/-- C1: for every narration text and total duration `D` (defaulting to 5 when
the scene's `audioDuration` is absent, and taken non-negative, as a duration
is), the subtitle chunks partition `[0, D]` exactly: the chunk list is
non-empty, the first chunk starts at 0, each subsequent chunk's start equals
the previous chunk's end (contiguous, non-overlapping), end values are
monotonically non-decreasing, and the final chunk's end equals `D`. -/
theorem subtitle_chunks_partition (narration : List Char)
    (audioDuration : Option ℚ) (hD : 0 ≤ defaultDuration audioDuration) :
    currentSubtitles narration audioDuration ≠ [] ∧
    (∀ h : currentSubtitles narration audioDuration ≠ [],
      ((currentSubtitles narration audioDuration).head h).start = 0) ∧
    List.Chain' (fun a b => b.start = a.stop)
      (currentSubtitles narration audioDuration) ∧
    List.Pairwise (fun a b => a.stop ≤ b.stop)
      (currentSubtitles narration audioDuration) ∧
    (∀ h : currentSubtitles narration audioDuration ≠ [],
      ((currentSubtitles narration audioDuration).getLast h).stop =
        defaultDuration audioDuration) := by
  obtain ⟨p, rest, hp⟩ :=
    List.exists_cons_of_ne_nil (finalParts_ne_nil narration)
  have hne : currentSubtitles narration audioDuration ≠ [] := by
    simp only [currentSubtitles]
    rw [hp, mkChunks]
    exact List.cons_ne_nil _ _
  refine ⟨hne, ?_, ?_, ?_, ?_⟩
  · intro h
    have h1 : (currentSubtitles narration audioDuration).head? =
        some (⟨p, 0, 0 + partDur (finalParts narration).flatten.length
          (defaultDuration audioDuration) p⟩ : SubtitleChunk) := by
      show (mkChunks (finalParts narration).flatten.length
        (defaultDuration audioDuration) (finalParts narration) 0).head? = _
      rw [mkChunks_head?, hp, List.head?_cons, Option.map_some']
    rw [List.head?_eq_head h] at h1
    exact congrArg SubtitleChunk.start (Option.some.inj h1)
  · exact mkChunks_chain _ _ _ _
  · haveI : IsTrans SubtitleChunk (fun a b => a.stop ≤ b.stop) :=
      ⟨fun _ _ _ h1 h2 => le_trans h1 h2⟩
    exact List.chain'_iff_pairwise.mp (mkChunks_stop_chain _ _ hD _ _)
  · intro h
    have h1 : (currentSubtitles narration audioDuration).getLast?.map
        SubtitleChunk.stop =
        some (0 + ((finalParts narration).map
          (partDur (finalParts narration).flatten.length
            (defaultDuration audioDuration))).sum) := by
      show ((mkChunks (finalParts narration).flatten.length
        (defaultDuration audioDuration) (finalParts narration) 0).getLast?.map
          SubtitleChunk.stop) = _
      rw [mkChunks_getLast?_stop, hp, List.head?_cons, Option.map_some']
    rw [List.getLast?_eq_getLast _ h, Option.map_some'] at h1
    rw [Option.some.inj h1]
    by_cases h0 : (finalParts narration).flatten.length = 0
    · have hone := finalParts_of_flatten_nil narration h0
      rw [hone] at h0 ⊢
      simp only [List.flatten_cons, List.flatten_nil, List.append_nil] at h0 ⊢
      rw [List.map_cons, List.map_nil, List.sum_cons, List.sum_nil, partDur,
        if_neg (by omega)]
      ring
    · have hpos : 0 < ((finalParts narration).map List.length).sum := by
        rw [← List.length_flatten]
        omega
      rw [List.length_flatten,
        sum_partDur_eq (defaultDuration audioDuration) (finalParts narration)
          hpos]
      ring

/-- Closed witness for C1 at the spec's own scenario: narration `"A. B!"`,
duration 4. -/
theorem subtitle_chunks_partition_witness :
    0 ≤ defaultDuration (some 4) ∧
    (currentSubtitles "A. B!".toList (some 4) ≠ [] ∧
    (∀ h : currentSubtitles "A. B!".toList (some 4) ≠ [],
      ((currentSubtitles "A. B!".toList (some 4)).head h).start = 0) ∧
    List.Chain' (fun a b => b.start = a.stop)
      (currentSubtitles "A. B!".toList (some 4)) ∧
    List.Pairwise (fun a b => a.stop ≤ b.stop)
      (currentSubtitles "A. B!".toList (some 4)) ∧
    (∀ h : currentSubtitles "A. B!".toList (some 4) ≠ [],
      ((currentSubtitles "A. B!".toList (some 4)).getLast h).stop =
        defaultDuration (some 4))) :=
  ⟨by norm_num [defaultDuration],
   subtitle_chunks_partition "A. B!".toList (some 4)
     (by norm_num [defaultDuration])⟩

/-- C2: each subtitle chunk's duration is the total duration times its
segment's character length over the total character count `L` of all
segments (exactly, in the rational model); chunk `i`'s text is exactly the
`i`-th segment of the punctuation split.  In the degenerate case `L = 0`,
the chunker produces a single (possibly empty) chunk spanning the whole
duration `D`. -/
theorem chunk_durations_proportional (narration : List Char)
    (audioDuration : Option ℚ) :
    (currentSubtitles narration audioDuration).map SubtitleChunk.text =
      finalParts narration ∧
    (0 < (finalParts narration).flatten.length →
      ∀ c ∈ currentSubtitles narration audioDuration,
        c.stop - c.start =
          defaultDuration audioDuration * (c.text.length : ℚ) /
            ((finalParts narration).flatten.length : ℚ)) ∧
    ((finalParts narration).flatten.length = 0 →
      currentSubtitles narration audioDuration =
        [⟨narration, 0, defaultDuration audioDuration⟩]) := by
  refine ⟨mkChunks_map_text _ _ _ _, ?_, ?_⟩
  · intro hpos c hc
    have hstop := mkChunks_stop_eq (finalParts narration).flatten.length
      (defaultDuration audioDuration) (finalParts narration) 0 c hc
    rw [hstop, partDur, if_pos hpos]
    ring
  · intro h0
    have hone := finalParts_of_flatten_nil narration h0
    show mkChunks (finalParts narration).flatten.length
      (defaultDuration audioDuration) (finalParts narration) 0 = _
    rw [hone] at h0 ⊢
    simp only [List.flatten_cons, List.flatten_nil, List.append_nil] at h0 ⊢
    rw [mkChunks, mkChunks, partDur, if_neg (by omega), zero_add]

/-! ## Scenes and the playback sequencer (Player.tsx, lines 178-251) -/

/-- A scene record (`types.ts`, `Scene`), restricted to the fields the Player
reads.  URLs are opaque strings; `audioDuration` is in seconds. -/
structure Scene where
  id : List Char
  narration : List Char
  visualPrompt : List Char
  imageUrl : Option (List Char)
  videoUrl : Option (List Char)
  audioUrl : Option (List Char)
  audioDuration : Option ℚ
deriving DecidableEq, Repr

/-- An advance trigger for the current scene: the narration `ended` listener
(lines 221-227) or a `setTimeout(handleNext, ms)` timer. -/
inductive AdvanceSource where
  | audioEnded : AdvanceSource
  | timeout (ms : ℚ) : AdvanceSource
deriving DecidableEq, Repr

/-- JavaScript truthiness of an optional string: `undefined` and the empty
string are both falsy. -/
def urlTruthy : Option (List Char) → Bool
  | none => false
  | some u => !u.isEmpty

/-- The advance triggers the scene-entry effect (lines 206-216) arms that can
fire for this scene.  `narrationPlayOk` is whether `narrationRef.play()`
succeeded.  Line 206's `if (scene.audioUrl)` is a truthiness test, so an
absent and an empty `audioUrl` alike take the else branch, arming the fixed
5000 ms timer of line 214.  With a truthy `audioUrl`, a successful play is
advanced by the `ended` listener (registered in the effect of lines 221-227,
and firing only for narration that actually started playing); a failed play
instead arms the fallback `setTimeout` of `(scene.audioDuration || 5) * 1000`
ms in the `catch` of line 211. -/
def sceneEntryAdvances (scene : Scene) (narrationPlayOk : Bool) :
    List AdvanceSource :=
  if urlTruthy scene.audioUrl then
    if narrationPlayOk then [AdvanceSource.audioEnded]
    else [AdvanceSource.timeout (defaultDuration scene.audioDuration * 1000)]
  else [AdvanceSource.timeout 5000]

/-- The Player's session state: the React state flags and scene index, and
the observable state of the media handles and recorder that the advance and
finish logic touches.  The `*Paused` fields mirror `HTMLMediaElement.paused`;
`renderLoopActive` is whether a `requestAnimationFrame` callback is pending;
`recorderInactive` mirrors `MediaRecorder.state === "inactive"`. -/
structure PlayerState where
  currentSceneIndex : ℕ
  isPlaying : Bool
  isRecording : Bool
  bgmPaused : Bool
  narrationPaused : Bool
  videoPaused : Bool
  renderLoopActive : Bool
  recorderInactive : Bool
deriving DecidableEq, Repr

/-- `stopRecording` (lines 322-340) as it acts on the session state: when the
recorder is not inactive, stop it, whereupon its `onstop` handler clears the
recording flag.  (The produced file is modelled by `stopRecordingFile`.) -/
def stopRecording (s : PlayerState) : PlayerState :=
  if s.recorderInactive then s
  else { s with recorderInactive := true, isRecording := false }

/-- `finishPlayback` (lines 241-251): clear the playing flag, pause
background music, narration and the video, cancel the render loop, and stop
an active recording. -/
def finishPlayback (s : PlayerState) : PlayerState :=
  let s1 : PlayerState := { s with
    isPlaying := false, bgmPaused := true, narrationPaused := true,
    videoPaused := true, renderLoopActive := false }
  if s1.isRecording then stopRecording s1 else s1

/-- `handleNext` (lines 229-239): move to the incremented scene index when it
is in bounds, otherwise keep the index and finish playback. -/
def handleNext (numScenes : ℕ) (s : PlayerState) : PlayerState :=
  if s.currentSceneIndex + 1 < numScenes then
    { s with currentSceneIndex := s.currentSceneIndex + 1 }
  else finishPlayback s

/-! ### Sequencer helper lemmas -/

/-- Finishing never moves the scene index. -/
theorem finishPlayback_index (s : PlayerState) :
    (finishPlayback s).currentSceneIndex = s.currentSceneIndex := by
  rcases h1 : s.isRecording <;> rcases h2 : s.recorderInactive <;>
    simp [finishPlayback, stopRecording, h1, h2]

/-- Finishing clears the playing flag. -/
theorem finishPlayback_isPlaying (s : PlayerState) :
    (finishPlayback s).isPlaying = false := by
  rcases h1 : s.isRecording <;> rcases h2 : s.recorderInactive <;>
    simp [finishPlayback, stopRecording, h1, h2]

/-- One advance step keeps an in-bounds index in bounds. -/
theorem handleNext_index_lt (numScenes : ℕ) (s : PlayerState)
    (hs : s.currentSceneIndex < numScenes) :
    (handleNext numScenes s).currentSceneIndex < numScenes := by
  rw [handleNext]
  split
  · next h => simpa using h
  · rw [finishPlayback_index]
    exact hs

/-! ### Claim theorems for the sequencer -/

/-- C3: a scene with no `audioUrl` arms exactly the fixed 5-second (5000 ms
wall-clock) advance timer instead of waiting on narration audio — whatever
the state of its visual assets (any `imageUrl`/`videoUrl`) and whether
narration playback could have started. -/
theorem no_audio_fixed_timer (scene : Scene) (narrationPlayOk : Bool)
    (h : scene.audioUrl = none) :
    sceneEntryAdvances scene narrationPlayOk =
      [AdvanceSource.timeout 5000] := by
  simp [sceneEntryAdvances, urlTruthy, h]

/-- Closed witness for C3: a scene with visuals but no narration audio. -/
theorem no_audio_fixed_timer_witness :
    (⟨['s'], ['t'], ['p'], some ['i'], some ['v'], none, some 9⟩ :
        Scene).audioUrl = none ∧
    sceneEntryAdvances
        (⟨['s'], ['t'], ['p'], some ['i'], some ['v'], none, some 9⟩ : Scene)
        true = [AdvanceSource.timeout 5000] :=
  ⟨rfl, no_audio_fixed_timer _ true rfl⟩

/-- C4: exactly one advance is armed per scene entry — the audio-end listener
or one timeout, never both able to fire; a timeout is armed only when
narration audio playback could not start (there is no truthy `audioUrl` — it
is absent or the empty string — or `play()` failed), and the audio-end
listener fires exactly when the scene has a non-empty narration audio URL
whose playback started. -/
theorem exactly_one_advance (scene : Scene) (narrationPlayOk : Bool) :
    (sceneEntryAdvances scene narrationPlayOk).length = 1 ∧
    (∀ ms : ℚ,
      AdvanceSource.timeout ms ∈ sceneEntryAdvances scene narrationPlayOk →
        scene.audioUrl = none ∨ scene.audioUrl = some [] ∨
          narrationPlayOk = false) ∧
    (AdvanceSource.audioEnded ∈ sceneEntryAdvances scene narrationPlayOk ↔
      (∃ u, scene.audioUrl = some u ∧ u ≠ []) ∧ narrationPlayOk = true) := by
  rcases hsa : scene.audioUrl with _ | u
  · simp [sceneEntryAdvances, urlTruthy, hsa]
  · by_cases hu : u = []
    · subst hu
      simp [sceneEntryAdvances, urlTruthy, hsa]
    · rcases narrationPlayOk <;>
        simp [sceneEntryAdvances, urlTruthy, hsa, hu]

/-- C5: an advance increments the scene index when the incremented index is
in bounds, leaving the session playing so per-scene entry re-runs for that
scene; otherwise the session finishes: the index stays, the playing flag is
cleared, background music, narration and the motion clip are paused, the
render loop is cancelled, and the recorder of an active recording session
ends inactive. -/
theorem advance_or_finish (numScenes : ℕ) (s : PlayerState) :
    (s.currentSceneIndex + 1 < numScenes →
      handleNext numScenes s =
        { s with currentSceneIndex := s.currentSceneIndex + 1 }) ∧
    (¬ s.currentSceneIndex + 1 < numScenes →
      (handleNext numScenes s).currentSceneIndex = s.currentSceneIndex ∧
      (handleNext numScenes s).isPlaying = false ∧
      (handleNext numScenes s).bgmPaused = true ∧
      (handleNext numScenes s).narrationPaused = true ∧
      (handleNext numScenes s).videoPaused = true ∧
      (handleNext numScenes s).renderLoopActive = false ∧
      (s.isRecording = true →
        (handleNext numScenes s).recorderInactive = true)) := by
  constructor
  · intro h
    rw [handleNext, if_pos h]
  · intro h
    rw [handleNext, if_neg h]
    rcases h1 : s.isRecording <;> rcases h2 : s.recorderInactive <;>
      simp [finishPlayback, stopRecording, h1, h2]

/-- C10 (implicit): from any in-bounds scene index, any number of advances
keeps the index within bounds, and an advance taken at the last scene leaves
the index unchanged (while finishing, clearing the playing flag) rather than
moving it out of bounds — so the `scenes[currentSceneIndex]` lookup stays
defined. -/
theorem scene_index_in_bounds (numScenes : ℕ) (s : PlayerState)
    (hs : s.currentSceneIndex < numScenes) :
    (∀ k : ℕ,
      ((handleNext numScenes)^[k] s).currentSceneIndex < numScenes) ∧
    (s.currentSceneIndex + 1 = numScenes →
      (handleNext numScenes s).currentSceneIndex = s.currentSceneIndex ∧
      (handleNext numScenes s).isPlaying = false) := by
  constructor
  · intro k
    induction k with
    | zero => simpa using hs
    | succ n ih =>
      rw [Function.iterate_succ_apply']
      exact handleNext_index_lt numScenes _ ih
  · intro hlast
    have hnot : ¬ s.currentSceneIndex + 1 < numScenes := by omega
    rw [handleNext, if_neg hnot]
    exact ⟨finishPlayback_index s, finishPlayback_isPlaying s⟩

/-- An idle session state, for concrete witnesses. -/
def initialState : PlayerState :=
  { currentSceneIndex := 0, isPlaying := false, isRecording := false,
    bgmPaused := true, narrationPaused := true, videoPaused := true,
    renderLoopActive := false, recorderInactive := true }

/-- Closed witness for C10: a three-scene session starting at scene 0. -/
theorem scene_index_in_bounds_witness :
    initialState.currentSceneIndex < 3 ∧
    ((∀ k : ℕ,
      ((handleNext 3)^[k] initialState).currentSceneIndex < 3) ∧
    (initialState.currentSceneIndex + 1 = 3 →
      (handleNext 3 initialState).currentSceneIndex =
        initialState.currentSceneIndex ∧
      (handleNext 3 initialState).isPlaying = false)) :=
  ⟨by decide, scene_index_in_bounds 3 initialState (by decide)⟩

/-! ## Recording session start (startPlayback, lines 254-320) -/

/-- Outcome of `startPlayback`: the resulting session state and whether the
encoder-unsupported error was reported to the user (the `alert` of
line 310). -/
structure StartOutcome where
  state : PlayerState
  alerted : Bool
deriving DecidableEq, Repr

/-- `startPlayback(recording)`: mark the session playing at scene 0 with the
recording flag as requested.  When recording and a canvas is available, the
capture pipeline is built and `new MediaRecorder(...)` is attempted: on
success the recorder starts; on failure the error is reported, the recording
flag is cleared and the function returns early (lines 308-313), skipping the
`requestAnimationFrame` and background-music start of lines 317-319 that
every other path reaches. -/
def startPlayback (s : PlayerState)
    (recording canvasPresent encoderOk : Bool) : StartOutcome :=
  let s1 : PlayerState := { s with
    isPlaying := true, currentSceneIndex := 0, isRecording := recording }
  if recording && canvasPresent then
    if encoderOk then
      { state := { s1 with
          recorderInactive := false, renderLoopActive := true,
          bgmPaused := false },
        alerted := false }
    else
      { state := { s1 with isRecording := false }, alerted := true }
  else
    { state := { s1 with renderLoopActive := true, bgmPaused := false },
      alerted := false }

/-- Counterexample to C6 as stated: when the encoder cannot be constructed,
the early return of line 313 also skips starting the render loop and the
background music, so playback that was started does not continue unaffected —
the same start with a working encoder starts both. -/
theorem encoder_fail_counterexample :
    (startPlayback initialState true true false).state.renderLoopActive =
      false ∧
    (startPlayback initialState true true true).state.renderLoopActive =
      true ∧
    (startPlayback initialState true true false).state.bgmPaused = true ∧
    (startPlayback initialState true true true).state.bgmPaused = false := by
  decide

/-- C6 amended: encoder-construction failure aborts the recording session
only (the recording flag is cleared, the recorder is never started) and is
reported to the user, and the session remains marked playing at scene 0 — so
scene sequencing continues — but `startPlayback` returns early, leaving the
render loop and background music un-started (unchanged from before the
call). -/
theorem encoder_fail_aborts_recording_only (s : PlayerState) :
    (startPlayback s true true false).alerted = true ∧
    (startPlayback s true true false).state.isRecording = false ∧
    (startPlayback s true true false).state.recorderInactive =
      s.recorderInactive ∧
    (startPlayback s true true false).state.isPlaying = true ∧
    (startPlayback s true true false).state.currentSceneIndex = 0 ∧
    (startPlayback s true true false).state.renderLoopActive =
      s.renderLoopActive ∧
    (startPlayback s true true false).state.bgmPaused = s.bgmPaused := by
  simp [startPlayback]

/-! ## Recording buffer (lines 259, 301-307 and 322-340) -/

/-- `recorder.ondataavailable` (lines 303-305): append a fragment to the
buffer only when its size is positive.  A fragment is its byte list. -/
def onDataAvailable (buf : List (List ℕ)) (d : List ℕ) : List (List ℕ) :=
  if d.length > 0 then buf ++ [d] else buf

/-- The buffer after a sequence of `dataavailable` events in arrival order
(`recordedChunksRef` starts empty, line 259). -/
def recordChunks (arrivals : List (List ℕ)) : List (List ℕ) :=
  arrivals.foldl onDataAvailable []

/-- `stopRecording`'s `onstop` handler (lines 325-338): when the recorder was
not inactive, exactly one Blob is built — the concatenation of the buffered
fragments in order — and offered as a single download; otherwise nothing is
produced. -/
def stopRecordingFile (recorderInactive : Bool) (buf : List (List ℕ)) :
    Option (List ℕ) :=
  if recorderInactive then none else some buf.flatten

/-- The buffer accumulates exactly the non-empty fragments, in arrival
order. -/
theorem recordChunks_foldl (arrivals : List (List ℕ)) :
    ∀ acc : List (List ℕ), arrivals.foldl onDataAvailable acc =
      acc ++ arrivals.filter (fun d => decide (0 < d.length)) := by
  induction arrivals with
  | nil => intro acc; simp
  | cons a l ih =>
    intro acc
    rw [List.foldl_cons, ih, List.filter_cons, onDataAvailable]
    by_cases h : 0 < a.length
    · rw [if_pos h, if_pos (by simpa using h)]
      simp
    · rw [if_neg h, if_neg (by simpa using h)]

/-- C7: every non-empty encoder data fragment is appended to the recording
buffer in arrival order (empty ones are skipped, none dropped or duplicated:
the buffer is exactly the arrival list filtered to non-empty fragments), and
stopping an active recording yields exactly one finalized file concatenating
all buffered fragments in that order. -/
theorem recording_buffer_faithful (arrivals : List (List ℕ)) :
    recordChunks arrivals =
      arrivals.filter (fun d => decide (0 < d.length)) ∧
    stopRecordingFile false (recordChunks arrivals) =
      some (arrivals.filter (fun d => decide (0 < d.length))).flatten := by
  have h := recordChunks_foldl arrivals []
  rw [List.nil_append] at h
  refine ⟨h, ?_⟩
  rw [stopRecordingFile, if_neg (by simp), recordChunks, h]

/-! ## Frame renderer (renderFrame, lines 107-175; drawImageProp, 349-381) -/

/-- The rectangle of one `ctx.drawImage(img, xPos, yPos, nw, nh)` call. -/
structure DrawCall where
  x : ℚ
  y : ℚ
  w : ℚ
  h : ℚ
deriving DecidableEq, Repr

/-- `drawImageProp`: the rectangle handed to `ctx.drawImage`, or `none` when
the source has zero width or height (the `!imgW || !imgH` early return of
line 353).  The base scale covers the target area
(`max(w / imgW, h / imgH)`, line 356), multiplied by the zoom factor. -/
def drawImageProp (imgW imgH : ℕ) (x y w h offsetX offsetY zoomFactor : ℚ) :
    Option DrawCall :=
  if imgW = 0 ∨ imgH = 0 then none
  else
    let baseScale := max (w / (imgW : ℚ)) (h / (imgH : ℚ))
    let scale := baseScale * zoomFactor
    let nw := (imgW : ℚ) * scale
    let nh := (imgH : ℚ) * scale
    some ⟨x + (w - nw) * offsetX, y + (h - nh) * offsetY, nw, nh⟩

/-- The Ken Burns zoom of lines 134-140: progress is wall-clock time elapsed
since the scene start over the scene duration in milliseconds
(`(audioDuration || 5) * 1000`), clamped above at 1; the scale is
`1.0 + progress * 0.15`. -/
def kenBurnsScale (now sceneStart : ℚ) (audioDuration : Option ℚ) : ℚ :=
  let duration := defaultDuration audioDuration * 1000
  let elapsed := now - sceneStart
  let progress := min (elapsed / duration) 1
  1 + progress * 0.15

/-- The observable state of the canvas, media handles and clocks at one
render tick. -/
structure MediaState where
  canvasPresent : Bool
  ctxPresent : Bool
  canvasW : ℚ
  canvasH : ℚ
  videoReadyState : ℕ
  videoPaused : Bool
  videoWidth : ℕ
  videoHeight : ℕ
  imgComplete : Bool
  imgNaturalWidth : ℕ
  imgNaturalHeight : ℕ
  narrationCurrentTime : ℚ
  now : ℚ
  sceneStartTime : ℚ

/-- One tick's drawing commands. -/
inductive DrawOp where
  | clearBlack : DrawOp
  | media (c : DrawCall) : DrawOp
  | fallbackFill : DrawOp
  | subtitleText (t : List Char) : DrawOp
deriving DecidableEq, Repr

/-- Step 3 of `renderFrame` (lines 151-172): when a scene is current and
playback is on, draw the subtitle chunk active at the narration audio's
current position (`start ≤ t ≤ end`), if any. -/
def subtitleOps (m : MediaState) (scene : Option Scene) (isPlaying : Bool) :
    List DrawOp :=
  match scene, isPlaying with
  | some sc, true =>
    match (currentSubtitles sc.narration sc.audioDuration).find?
        (fun sub => decide (sub.start ≤ m.narrationCurrentTime) &&
          decide (m.narrationCurrentTime ≤ sub.stop)) with
    | some sub => [DrawOp.subtitleText sub.text]
    | none => []
  | _, _ => []

/-- Steps 1-2 of `renderFrame` (lines 113-149): clear to black, then draw the
playing, ready video (readyState ≥ 2 and not paused), else the completely
loaded image (natural width > 0) under the Ken Burns zoom, else the solid
fallback fill. -/
def baseOps (m : MediaState) (scene : Option Scene) : List DrawOp :=
  if 2 ≤ m.videoReadyState ∧ m.videoPaused = false then
    DrawOp.clearBlack ::
      ((drawImageProp m.videoWidth m.videoHeight 0 0 m.canvasW m.canvasH
        0.5 0.5 1).map DrawOp.media).toList
  else if m.imgComplete = true ∧ 0 < m.imgNaturalWidth then
    DrawOp.clearBlack ::
      ((drawImageProp m.imgNaturalWidth m.imgNaturalHeight 0 0 m.canvasW
        m.canvasH 0.5 0.5
        (kenBurnsScale m.now m.sceneStartTime
          (scene.bind Scene.audioDuration))).map DrawOp.media).toList
  else [DrawOp.clearBlack, DrawOp.fallbackFill]

/-- `renderFrame`: a no-op when the canvas or its 2d context is unavailable
(lines 108-111), else the base compositing followed by the subtitle. -/
def renderFrame (m : MediaState) (scene : Option Scene) (isPlaying : Bool) :
    List DrawOp :=
  if m.canvasPresent = false then []
  else if m.ctxPresent = false then []
  else baseOps m scene ++ subtitleOps m scene isPlaying

/-- C9: the renderer is a total function of the tick state (it cannot throw
on missing or unready assets); when neither a playing, ready video nor a
completely loaded image is available it draws the solid fallback fill after
the clear, and the drawing helper draws nothing when its source has zero
width or height. -/
theorem renderer_degrades_safely (m : MediaState) (scene : Option Scene)
    (isPlaying : Bool)
    (hcv : m.canvasPresent = true) (hctx : m.ctxPresent = true)
    (hvid : ¬ (2 ≤ m.videoReadyState ∧ m.videoPaused = false))
    (himg : ¬ (m.imgComplete = true ∧ 0 < m.imgNaturalWidth)) :
    renderFrame m scene isPlaying =
      [DrawOp.clearBlack, DrawOp.fallbackFill] ++
        subtitleOps m scene isPlaying ∧
    (∀ (iw ih : ℕ) (x y w h ox oy z : ℚ), iw = 0 ∨ ih = 0 →
      drawImageProp iw ih x y w h ox oy z = none) := by
  constructor
  · rw [renderFrame, if_neg (by simp [hcv]), if_neg (by simp [hctx]),
      baseOps, if_neg hvid, if_neg himg]
  · intro iw ih x y w h ox oy z h0
    rw [drawImageProp, if_pos h0]

/-- A tick state with no canvas asset ready, for the C9 witness. -/
def bareTick : MediaState :=
  { canvasPresent := true, ctxPresent := true, canvasW := 1280,
    canvasH := 720, videoReadyState := 0, videoPaused := true,
    videoWidth := 0, videoHeight := 0, imgComplete := false,
    imgNaturalWidth := 0, imgNaturalHeight := 0, narrationCurrentTime := 0,
    now := 0, sceneStartTime := 0 }

/-- Closed witness for C9: a tick with no video and no image loaded. -/
theorem renderer_degrades_safely_witness :
    (bareTick.canvasPresent = true ∧ bareTick.ctxPresent = true ∧
      ¬ (2 ≤ bareTick.videoReadyState ∧ bareTick.videoPaused = false) ∧
      ¬ (bareTick.imgComplete = true ∧ 0 < bareTick.imgNaturalWidth)) ∧
    (renderFrame bareTick none false =
      [DrawOp.clearBlack, DrawOp.fallbackFill] ++
        subtitleOps bareTick none false ∧
    (∀ (iw ih : ℕ) (x y w h ox oy z : ℚ), iw = 0 ∨ ih = 0 →
      drawImageProp iw ih x y w h ox oy z = none)) :=
  ⟨⟨rfl, rfl, by decide, by decide⟩,
   renderer_degrades_safely bareTick none false rfl rfl (by decide)
     (by decide)⟩

/-- C8: when a still image is the active visual, the tick's zoom factor is
the linear interpolation from 1.0 to 1.15 of the wall-clock progress since
the scene start across the scene's total duration, with progress clamped at
1; the image is drawn scaled by cover-scale times this zoom factor, centered
in the output area. -/
theorem ken_burns_zoom (m : MediaState) (scene : Option Scene)
    (isPlaying : Bool)
    (hcv : m.canvasPresent = true) (hctx : m.ctxPresent = true)
    (hvid : ¬ (2 ≤ m.videoReadyState ∧ m.videoPaused = false))
    (himgc : m.imgComplete = true) (hw : 0 < m.imgNaturalWidth)
    (hh : 0 < m.imgNaturalHeight)
    (hD : 0 < defaultDuration (scene.bind Scene.audioDuration))
    (helapsed : 0 ≤ m.now - m.sceneStartTime) :
    ∃ c : DrawCall,
      drawImageProp m.imgNaturalWidth m.imgNaturalHeight 0 0 m.canvasW
        m.canvasH 0.5 0.5 (kenBurnsScale m.now m.sceneStartTime
          (scene.bind Scene.audioDuration)) = some c ∧
      renderFrame m scene isPlaying =
        [DrawOp.clearBlack, DrawOp.media c] ++
          subtitleOps m scene isPlaying ∧
      (∃ p : ℚ, 0 ≤ p ∧ p ≤ 1 ∧
        p = min ((m.now - m.sceneStartTime) /
          (defaultDuration (scene.bind Scene.audioDuration) * 1000)) 1 ∧
        kenBurnsScale m.now m.sceneStartTime (scene.bind Scene.audioDuration)
          = (1 - p) * 1 + p * 1.15) ∧
      c.w = (m.imgNaturalWidth : ℚ) *
        (max (m.canvasW / (m.imgNaturalWidth : ℚ))
            (m.canvasH / (m.imgNaturalHeight : ℚ)) *
          kenBurnsScale m.now m.sceneStartTime
            (scene.bind Scene.audioDuration)) ∧
      c.h = (m.imgNaturalHeight : ℚ) *
        (max (m.canvasW / (m.imgNaturalWidth : ℚ))
            (m.canvasH / (m.imgNaturalHeight : ℚ)) *
          kenBurnsScale m.now m.sceneStartTime
            (scene.bind Scene.audioDuration)) ∧
      c.x + c.w / 2 = m.canvasW / 2 ∧
      c.y + c.h / 2 = m.canvasH / 2 := by
  have hno : ¬ (m.imgNaturalWidth = 0 ∨ m.imgNaturalHeight = 0) := by
    omega
  have hc : drawImageProp m.imgNaturalWidth m.imgNaturalHeight 0 0 m.canvasW
      m.canvasH 0.5 0.5 (kenBurnsScale m.now m.sceneStartTime
        (scene.bind Scene.audioDuration)) = some
      ⟨0 + (m.canvasW - (m.imgNaturalWidth : ℚ) *
          (max (m.canvasW / (m.imgNaturalWidth : ℚ))
              (m.canvasH / (m.imgNaturalHeight : ℚ)) *
            kenBurnsScale m.now m.sceneStartTime
              (scene.bind Scene.audioDuration))) * 0.5,
        0 + (m.canvasH - (m.imgNaturalHeight : ℚ) *
          (max (m.canvasW / (m.imgNaturalWidth : ℚ))
              (m.canvasH / (m.imgNaturalHeight : ℚ)) *
            kenBurnsScale m.now m.sceneStartTime
              (scene.bind Scene.audioDuration))) * 0.5,
        (m.imgNaturalWidth : ℚ) *
          (max (m.canvasW / (m.imgNaturalWidth : ℚ))
              (m.canvasH / (m.imgNaturalHeight : ℚ)) *
            kenBurnsScale m.now m.sceneStartTime
              (scene.bind Scene.audioDuration)),
        (m.imgNaturalHeight : ℚ) *
          (max (m.canvasW / (m.imgNaturalWidth : ℚ))
              (m.canvasH / (m.imgNaturalHeight : ℚ)) *
            kenBurnsScale m.now m.sceneStartTime
              (scene.bind Scene.audioDuration))⟩ := by
    simp only [drawImageProp, if_neg hno]
  refine ⟨_, hc, ?_, ?_, rfl, rfl, ?_, ?_⟩
  · rw [renderFrame, if_neg (by simp [hcv]), if_neg (by simp [hctx]),
      baseOps, if_neg hvid, if_pos ⟨himgc, hw⟩, hc]
    rfl
  · refine ⟨min ((m.now - m.sceneStartTime) /
      (defaultDuration (scene.bind Scene.audioDuration) * 1000)) 1,
      ?_, ?_, rfl, ?_⟩
    · refine le_min ?_ (by norm_num)
      exact div_nonneg helapsed (by positivity)
    · exact min_le_right _ _
    · rw [kenBurnsScale]
      ring
  · show 0 + (m.canvasW - (m.imgNaturalWidth : ℚ) * _) * 0.5 + _ / 2 = _
    ring
  · show 0 + (m.canvasH - (m.imgNaturalHeight : ℚ) * _) * 0.5 + _ / 2 = _
    ring

/-- A scene with a still image and 4-second narration, for the C8 witness. -/
def kenScene : Scene :=
  ⟨['k'], "A. B!".toList, ['p'], some ['i'], none, some ['a'], some 4⟩

/-- A tick two seconds into `kenScene` with the image loaded, for the C8
witness. -/
def imageTick : MediaState :=
  { canvasPresent := true, ctxPresent := true, canvasW := 1280,
    canvasH := 720, videoReadyState := 0, videoPaused := true,
    videoWidth := 0, videoHeight := 0, imgComplete := true,
    imgNaturalWidth := 640, imgNaturalHeight := 360,
    narrationCurrentTime := 1, now := 2000, sceneStartTime := 0 }

/-- Closed witness for C8: the image branch two seconds into a 4-second
scene. -/
theorem ken_burns_zoom_witness :
    (imageTick.canvasPresent = true ∧ imageTick.ctxPresent = true ∧
      ¬ (2 ≤ imageTick.videoReadyState ∧ imageTick.videoPaused = false) ∧
      imageTick.imgComplete = true ∧ 0 < imageTick.imgNaturalWidth ∧
      0 < imageTick.imgNaturalHeight ∧
      0 < defaultDuration ((some kenScene).bind Scene.audioDuration) ∧
      0 ≤ imageTick.now - imageTick.sceneStartTime) ∧
    (∃ c : DrawCall,
      drawImageProp imageTick.imgNaturalWidth imageTick.imgNaturalHeight 0 0
        imageTick.canvasW imageTick.canvasH 0.5 0.5
        (kenBurnsScale imageTick.now imageTick.sceneStartTime
          ((some kenScene).bind Scene.audioDuration)) = some c ∧
      renderFrame imageTick (some kenScene) true =
        [DrawOp.clearBlack, DrawOp.media c] ++
          subtitleOps imageTick (some kenScene) true) := by
  have hD : 0 < defaultDuration ((some kenScene).bind Scene.audioDuration) := by
    norm_num [kenScene, defaultDuration]
  have helapsed : (0 : ℚ) ≤ imageTick.now - imageTick.sceneStartTime := by
    norm_num [imageTick]
  obtain ⟨c, h1, h2, _⟩ := ken_burns_zoom imageTick (some kenScene) true
    rfl rfl (by decide) rfl (by decide) (by decide) hD helapsed
  exact ⟨⟨rfl, rfl, by decide, rfl, by decide, by decide, hD, helapsed⟩,
    c, h1, h2⟩

end ZenCreate
